import Mathlib

/-!
Verification of the building decision pipeline of the Segmentation-Validation-Model
repository (`lidar_prod`): a shallow embedding of the data model and the operations
of `BuildingValidator`, `BuildingCompletor`, the threshold optimizer and the
shared utilities, together with theorems about them.

Modelling conventions:
* A LAS tile is a `List PointRec`; each record carries the named per-point
  dimensions the pipeline reads or writes.  Machine floats are modelled by `ℚ`,
  unsigned integer dimensions by `ℕ`.
* `np.mean` of a boolean mask over a non-empty array is the count of `true`
  divided by the length (`frac_true`); `np.mean` of a numeric array is
  `sum / length` (`mean_q`).  On the empty array numpy yields NaN while these
  functions yield `0`; every statement below that depends on a mean therefore
  carries the corresponding non-emptiness hypothesis.
* pdal filters (`ferry`, `assign`, `cluster ... where`, `overlay`) are external
  primitives; they are embedded by their documented effect on the dimension
  arrays, with the geometric parts (the actual Euclidean clustering, the
  point-in-polygon test) abstracted into oracle functions quantified over in the
  theorems.
-/

/-- A point of a LAS tile: the named dimensions used by the building pipeline.
`classification`, the 0/1 `candidate_flag`, the pdal `ClusterID` scratch
dimension, the two persistent cluster-id dimensions, the AI building
probability, the BDUni `db_overlay` value and the entropy channel. -/
@[ext]
structure PointRec where
  classification : ℕ
  candidate_flag : ℕ
  cluster_id_pdal : ℕ
  cluster_id_candidates : ℕ
  cluster_id_isolated_plus_confirmed : ℕ
  building_proba : ℚ
  db_overlay : ℚ
  entropy : ℚ
deriving DecidableEq, Repr

instance : Inhabited PointRec :=
  ⟨{ classification := 0, candidate_flag := 0, cluster_id_pdal := 0,
     cluster_id_candidates := 0, cluster_id_isolated_plus_confirmed := 0,
     building_proba := 0, db_overlay := 0, entropy := 0 }⟩

/-- Read point `i` of a tile (out-of-range reads give the all-zero record;
every statement using `getPoint` either carries the range hypothesis or is
insensitive to the default). -/
def getPoint (t : List PointRec) (i : ℕ) : PointRec := t.getD i default

/-- `np.mean` of a boolean mask: fraction of `true` entries. -/
def frac_true (l : List Bool) : ℚ := (l.countP id : ℚ) / (l.length : ℚ)

/-- `np.mean` of a numeric array. -/
def mean_q (l : List ℚ) : ℚ := l.sum / (l.length : ℚ)

/-- Comparison of index/value pairs by value: the sort order used by
`np.argsort` on the dimension array. -/
def valLe {α : Type _} [LinearOrder α] (p q : ℕ × α) : Prop := p.2 ≤ q.2

instance {α : Type _} [LinearOrder α] : DecidableRel (valLe (α := α)) :=
  fun p q => inferInstanceAs (Decidable (p.2 ≤ q.2))

instance {α : Type _} [LinearOrder α] : IsTotal (ℕ × α) valLe :=
  ⟨fun p q => le_total p.2 q.2⟩

instance {α : Type _} [LinearOrder α] : IsTrans (ℕ × α) valLe :=
  ⟨fun _ _ _ h h' => le_trans h h'⟩

/-- Split a list of index/value pairs into maximal runs of consecutive equal
values: the effect of `np.array_split(idx, np.where(np.diff(sorted) != 0)[0]+1)`
on the value-sorted sequence. -/
def groupRuns {α : Type _} [DecidableEq α] : List (ℕ × α) → List (List (ℕ × α))
  | [] => []
  | p :: ps =>
    match groupRuns ps with
    | [] => [[p]]
    | [] :: gs => [p] :: gs
    | (q :: g) :: gs =>
      if p.2 = q.2 then (p :: q :: g) :: gs else [p] :: (q :: g) :: gs

/-- Between a run and a later run of the value-sorted pair list, every value of
the former is strictly below every value of the latter (the later run is also
non-empty, which makes the relation transitive). -/
def runLt {α : Type _} [LinearOrder α] (g h : List (ℕ × α)) : Prop :=
  h ≠ [] ∧ ∀ p ∈ g, ∀ q ∈ h, p.2 < q.2

instance {α : Type _} [LinearOrder α] : IsTrans (List (ℕ × α)) runLt := by
  refine ⟨fun a b c hab hbc => ⟨hbc.1, fun p hp q hq => ?_⟩⟩
  obtain ⟨x, hx⟩ := List.exists_mem_of_ne_nil b hab.1
  exact lt_trans (hab.2 p hp x hx) (hbc.2 x hx q hq)

/-- `split_idx_by_dim` of `lidar_prod.tasks.utils`: argsort the dimension array,
then split the index sequence wherever the sorted values change.  Returns the
groups of indices of equal value, ordered by ascending value. -/
def split_idx_by_dim {α : Type _} [LinearOrder α] (dim_array : List α) : List (List ℕ) :=
  (groupRuns (dim_array.enum.insertionSort valLe)).map (List.map Prod.fst)

/-- `BuildingValidationClusterInfo` of `lidar_prod.tasks.building_validation`:
the per-member arrays of a cluster of candidate building points.  The `target`
slot receives, in `_extract_cluster_info_by_idx`, the classification values of
the members; the decision functions never read it. -/
structure BuildingValidationClusterInfo where
  probabilities : List ℚ
  overlays : List ℚ
  entropies : List ℚ
  target : List ℕ
deriving DecidableEq, Repr

/-- The `thresholds` dataclass: decision thresholds for cluster-level decisions. -/
structure thresholds where
  min_confidence_confirmation : ℚ
  min_frac_confirmation : ℚ
  min_frac_confirmation_factor_if_bd_uni_overlay : ℚ
  min_uni_db_overlay_frac : ℚ
  min_confidence_refutation : ℚ
  min_frac_refutation : ℚ
  min_entropy_uncertainty : ℚ
  min_frac_entropy_uncertain : ℚ
deriving DecidableEq, Repr

/-- The detailed classification codes (`codes.detailed.*` of the configuration). -/
structure DetailedCodes where
  unsure_by_entropy : ℕ
  ia_refuted : ℕ
  ia_refuted_but_under_db_uni : ℕ
  both_unsure : ℕ
  both_confirmed : ℕ
  ia_confirmed_only : ℕ
  db_overlayed_only : ℕ
deriving DecidableEq, Repr

/-- `BuildingValidator._make_detailed_group_decision`: the cluster-level decision
tree, translated statement by statement from the source.  `np.logical_and`
treats a numeric overlay value as true iff it is nonzero; `np.mean(overlays)`
is the numeric mean. -/
def make_detailed_group_decision (th : thresholds) (codes : DetailedCodes)
    (infos : BuildingValidationClusterInfo) : ℕ :=
  let high_entropy : Bool :=
    decide (th.min_frac_entropy_uncertain ≤
      frac_true (infos.entropies.map (fun e => decide (th.min_entropy_uncertainty ≤ e))))
  let relaxed_threshold : ℚ :=
    th.min_confidence_confirmation * th.min_frac_confirmation_factor_if_bd_uni_overlay
  let ia_confirmed_flag : List Bool :=
    (infos.probabilities.zip infos.overlays).map
      (fun po => decide (th.min_confidence_confirmation ≤ po.1) ||
        (decide (po.2 ≠ 0) && decide (relaxed_threshold ≤ po.1)))
  let ia_confirmed : Bool := decide (th.min_frac_confirmation ≤ frac_true ia_confirmed_flag)
  let ia_refuted : Bool :=
    decide (th.min_frac_refutation ≤
      frac_true (infos.probabilities.map (fun p => decide (th.min_confidence_refutation ≤ 1 - p))))
  let uni_overlayed : Bool := decide (th.min_uni_db_overlay_frac ≤ mean_q infos.overlays)
  if high_entropy then codes.unsure_by_entropy
  else if ia_refuted then
    (if uni_overlayed then codes.ia_refuted_but_under_db_uni else codes.ia_refuted)
  else if ia_confirmed then
    (if uni_overlayed then codes.both_confirmed else codes.ia_confirmed_only)
  else if uni_overlayed then codes.db_overlayed_only
  else codes.both_unsure

/-- The decision tree exactly as the specification words it (section 4.1):
`db_overlay` is read as a 0/1 flag whose truth is the value `1`, `overlay_frac`
is the mean of that indicator, and the first matching rule of the tree wins. -/
def spec_detailed_group_decision (th : thresholds) (codes : DetailedCodes)
    (infos : BuildingValidationClusterInfo) : ℕ :=
  let entropy_frac : ℚ :=
    frac_true (infos.entropies.map (fun e => decide (th.min_entropy_uncertainty ≤ e)))
  let ia_confirm : ℚ :=
    frac_true ((infos.probabilities.zip infos.overlays).map
      (fun po => decide (th.min_confidence_confirmation ≤ po.1) ||
        (decide (po.2 = 1) && decide (th.min_confidence_confirmation *
          th.min_frac_confirmation_factor_if_bd_uni_overlay ≤ po.1))))
  let ia_refute : ℚ :=
    frac_true (infos.probabilities.map (fun p => decide (th.min_confidence_refutation ≤ 1 - p)))
  let overlay_frac : ℚ := frac_true (infos.overlays.map (fun o => decide (o = 1)))
  if th.min_frac_entropy_uncertain ≤ entropy_frac then codes.unsure_by_entropy
  else if th.min_frac_refutation ≤ ia_refute then
    (if th.min_uni_db_overlay_frac ≤ overlay_frac then codes.ia_refuted_but_under_db_uni
     else codes.ia_refuted)
  else if th.min_frac_confirmation ≤ ia_confirm then
    (if th.min_uni_db_overlay_frac ≤ overlay_frac then codes.both_confirmed
     else codes.ia_confirmed_only)
  else if th.min_uni_db_overlay_frac ≤ overlay_frac then codes.db_overlayed_only
  else codes.both_unsure

/-- `las[dim_clf][pts_idx] = value`: overwrite the classification of the points
whose index lies in `pts_idx`. -/
def set_classification (value : ℕ) (pts_idx : List ℕ) (las : List PointRec) : List PointRec :=
  las.enum.map (fun ip => if ip.1 ∈ pts_idx then { ip.2 with classification := value } else ip.2)

/-- `BuildingValidator._extract_cluster_info_by_idx`: gather the per-member
arrays of the cluster whose point indices are `pts_idx`. -/
def extract_cluster_info_by_idx (las : List PointRec) (pts_idx : List ℕ) :
    BuildingValidationClusterInfo :=
  { probabilities := pts_idx.map (fun i => (getPoint las i).building_proba)
    overlays := pts_idx.map (fun i => (getPoint las i).db_overlay)
    entropies := pts_idx.map (fun i => (getPoint las i).entropy)
    target := pts_idx.map (fun i => (getPoint las i).classification) }

/-- The per-cluster loop of `BuildingValidator.update`: for each group of point
indices, extract the cluster info from the current array state and overwrite
the group's classification with the decision. -/
def decision_loop (decision_func : BuildingValidationClusterInfo → ℕ)
    (split_idx : List (List ℕ)) (las : List PointRec) : List PointRec :=
  split_idx.foldl
    (fun las pts_idx =>
      set_classification (decision_func (extract_cluster_info_by_idx las pts_idx)) pts_idx las)
    las

/-- Step 1 of `BuildingValidator.update`: map all candidate points
(`candidate_flag == 1`) to the single `not_building` code. -/
def preset_candidates (not_building : ℕ) (tile : List PointRec) : List PointRec :=
  tile.map (fun p => if p.candidate_flag = 1 then { p with classification := not_building } else p)

/-- `BuildingValidator.update`: preset candidates to `not_building`, split the
point indices by `ClusterID_candidate_building`, drop the first group
(`split_idx[1:]`), then decide cluster by cluster.  `decision_func` is
`_make_detailed_group_decision` or its composition with the detailed-to-final
map, depending on `use_final_classification_codes`. -/
def BuildingValidator.update (decision_func : BuildingValidationClusterInfo → ℕ)
    (not_building : ℕ) (tile : List PointRec) : List PointRec :=
  let las := preset_candidates not_building tile
  let split_idx := (split_idx_by_dim (las.map (fun p => p.cluster_id_candidates))).tail
  decision_loop decision_func split_idx las

/-- `pdal.Filter.cluster(..., where=...)` writing into the fresh `ClusterID`
dimension: the points selected by `where` receive, in order, the ids that the
clustering assigned to the selected sub-sequence; the other points keep the
dimension at its creation default `0`. -/
def cluster_where (sel : PointRec → Bool) : List ℕ → List PointRec → List PointRec
  | _, [] => []
  | ids, p :: ps =>
    if sel p then { p with cluster_id_pdal := ids.headD 0 } :: cluster_where sel ids.tail ps
    else { p with cluster_id_pdal := 0 } :: cluster_where sel ids ps

/-- The cluster filter as used by both preparation steps: the clustering oracle
`cluster_fn` sees exactly the selected points, and its output ids are laid back
onto them. -/
def pdal_filter_cluster (sel : PointRec → Bool) (cluster_fn : List PointRec → List ℕ)
    (t : List PointRec) : List PointRec :=
  cluster_where sel (cluster_fn (t.filter sel)) t

/-- `BuildingValidator.prepare`: flag candidate points (classification in the
candidate-code set), cluster them with a `where` clause on that flag, ferry the
resulting `ClusterID` into `ClusterID_candidate_building` and reset `ClusterID`,
create the `db_overlay` dimension at 0, and — when the vector fetch found
buildings — let the overlay filter write it.  `cluster_fn` is the Euclidean
clustering oracle and `overlay_fn` the point-in-polygon oracle. -/
def BuildingValidator.prepare (candidate_codes : List ℕ)
    (cluster_fn : List PointRec → List ℕ) (buildings_in_bd_topo : Bool)
    (overlay_fn : ℕ → ℚ) (tile : List PointRec) : List PointRec :=
  let t1 := tile.map
    (fun p => { p with candidate_flag := if p.classification ∈ candidate_codes then 1 else 0 })
  let t2 := pdal_filter_cluster (fun p => p.candidate_flag == 1) cluster_fn t1
  let t3 := t2.map (fun p => { p with cluster_id_candidates := p.cluster_id_pdal })
  let t4 := t3.map (fun p => { p with cluster_id_pdal := 0 })
  let t5 := t4.map (fun p => { p with db_overlay := 0 })
  if buildings_in_bd_topo then t5.enum.map (fun ip => { ip.2 with db_overlay := overlay_fn ip.1 })
  else t5

/-- All dimensions of a point except `classification`: `BuildingValidator.update`
and `BuildingCompletor.update_classification` only ever write `classification`,
so this projection is invariant under them. -/
def shape (p : PointRec) : ℕ × ℕ × ℕ × ℕ × ℚ × ℚ × ℚ :=
  (p.candidate_flag, p.cluster_id_pdal, p.cluster_id_candidates,
   p.cluster_id_isolated_plus_confirmed, p.building_proba, p.db_overlay, p.entropy)

/-- The selection of the decision function in `BuildingValidator.update`:
the detailed decision, or its composition with the `detailed_to_final_map`,
depending on `use_final_classification_codes`. -/
def decision_function (use_final_classification_codes : Bool)
    (detailed_to_final_map : ℕ → ℕ) (th : thresholds) (codes : DetailedCodes) :
    BuildingValidationClusterInfo → ℕ :=
  if use_final_classification_codes then
    fun infos => detailed_to_final_map (make_detailed_group_decision th codes infos)
  else
    make_detailed_group_decision th codes

/-- `BuildingCompletor.prepare_for_building_completion`: cluster, in 2D with
relaxed parameters, the union of (a) candidate points not clustered by the
validator whose probability passes the (possibly overlay-relaxed) threshold and
(b) points already classified as final building; ferry `ClusterID` into
`ClusterID_isolated_plus_confirmed` and reset it. -/
def BuildingCompletor.prepare_for_building_completion (building : ℕ)
    (min_building_proba : ℚ) (min_building_proba_relaxation_if_bd_uni_overlay : ℚ)
    (cluster_fn : List PointRec → List ℕ) (t : List PointRec) : List PointRec :=
  let sel := fun p => (p.candidate_flag == 1 && p.cluster_id_candidates == 0 &&
      (decide (min_building_proba ≤ p.building_proba) ||
        (decide (min_building_proba * min_building_proba_relaxation_if_bd_uni_overlay ≤
          p.building_proba) && decide (0 < p.db_overlay)))) ||
    p.classification == building
  let t2 := pdal_filter_cluster sel cluster_fn t
  let t3 := t2.map (fun p => { p with cluster_id_isolated_plus_confirmed := p.cluster_id_pdal })
  t3.map (fun p => { p with cluster_id_pdal := 0 })

/-- `BuildingCompletor.update_classification`: group points by
`ClusterID_isolated_plus_confirmed`, drop the noise group, and for each group
containing at least one point already classified as final building, set the
whole group to the building code. -/
def BuildingCompletor.update_classification (building : ℕ) (t : List PointRec) :
    List PointRec :=
  let split_idx :=
    (split_idx_by_dim (t.map (fun p => p.cluster_id_isolated_plus_confirmed))).tail
  split_idx.foldl
    (fun las pts_idx =>
      if building ∈ pts_idx.map (fun i => (getPoint las i).classification) then
        set_classification building pts_idx las
      else las)
    t

/-- `BuildingCompletor.run`: prepare (cluster isolated high-probability
candidates with confirmed buildings) then update the classification. -/
def BuildingCompletor.run (building : ℕ) (min_building_proba : ℚ)
    (min_building_proba_relaxation_if_bd_uni_overlay : ℚ)
    (cluster_fn : List PointRec → List ℕ) (t : List PointRec) : List PointRec :=
  BuildingCompletor.update_classification building
    (BuildingCompletor.prepare_for_building_completion building min_building_proba
      min_building_proba_relaxation_if_bd_uni_overlay cluster_fn t)

/-- The optimizer's constraint minima (`design.constraints`). -/
structure Constraints where
  min_precision_constraint : ℚ
  min_recall_constraint : ℚ
  min_automation_constraint : ℚ
deriving DecidableEq, Repr

/-- `BuildingValidationOptimizer._compute_penalty`: accumulate, in source order
(precision, recall, automation), the shortfall below each violated minimum, and
return the singleton list Optuna expects. -/
def compute_penalty (c : Constraints) (auto precision recall' : ℚ) : List ℚ :=
  let penalty : ℚ := 0
  let penalty := if precision < c.min_precision_constraint then
    penalty + (c.min_precision_constraint - precision) else penalty
  let penalty := if recall' < c.min_recall_constraint then
    penalty + (c.min_recall_constraint - recall') else penalty
  let penalty := if auto < c.min_automation_constraint then
    penalty + (c.min_automation_constraint - auto) else penalty
  [penalty]

/-- The specification's wording of the penalty: the sum of the shortfalls below
the three minima over the violated constraints. -/
def spec_shortfall_sum (c : Constraints) (auto precision recall' : ℚ) : ℚ :=
  (if auto < c.min_automation_constraint then c.min_automation_constraint - auto else 0) +
  (if precision < c.min_precision_constraint then c.min_precision_constraint - precision else 0) +
  (if recall' < c.min_recall_constraint then c.min_recall_constraint - recall' else 0)

/-- The reference-label configuration (`labels_from_20211001_building_val`):
the "true positive" code set and the two `min_frac` cut-offs. -/
structure MTSLabelsConfig where
  true_positives_codes : List ℕ
  min_frac_true_positives : ℚ
  min_frac_false_positives : ℚ
deriving DecidableEq, Repr

/-- The final classification codes (`codes.final.*`). -/
structure FinalCodes where
  building : ℕ
  not_building : ℕ
  unsure : ℕ
deriving DecidableEq, Repr

/-- `BuildingValidationOptimizer._define_MTS_ground_truth_flag`: from the
fraction of members carrying a true-positive reference label, call the cluster
building, not-building, or ambiguous. -/
def define_MTS_ground_truth_flag (labels : MTSLabelsConfig) (final : FinalCodes)
    (targets : List ℕ) : ℕ :=
  let tp_frac := frac_true (targets.map (fun c => decide (c ∈ labels.true_positives_codes)))
  if labels.min_frac_true_positives ≤ tp_frac then final.building
  else if tp_frac < labels.min_frac_false_positives then final.not_building
  else final.unsure

/-- `BuildingValidationOptimizer._extract_clusters_from_las`: split the point
indices by `ClusterID_candidate_building`, drop the first group
(`START_IDX_OF_CLUSTERS = 1`), and emit one cluster-info record per remaining
group.  The Python code overwrites the `target` slot of the dataclass with the
scalar ground-truth flag; the record and that flag are modelled as a pair. -/
def extract_clusters_from_las (labels : MTSLabelsConfig) (final : FinalCodes)
    (las : List PointRec) : List (BuildingValidationClusterInfo × ℕ) :=
  let split_idx := (split_idx_by_dim (las.map (fun p => p.cluster_id_candidates))).tail
  split_idx.map (fun pts_idx =>
    (extract_cluster_info_by_idx las pts_idx,
     define_MTS_ground_truth_flag labels final
       (pts_idx.map (fun i => (getPoint las i).classification))))

/-- A Python value of type `str` or `bytes`; `PyVal.bytes s` stands for the
UTF-8 encoding of the text `s` (every literal involved is ASCII). -/
inductive PyVal where
  | str : String → PyVal
  | bytes : String → PyVal
deriving DecidableEq, Repr

/-- Whether the first character list occurs at the start of the second. -/
def leadMatch : List Char → List Char → Bool
  | [], _ => true
  | _ :: _, [] => false
  | a :: as, b :: bs => a == b && leadMatch as bs

/-- Whether the first character list occurs contiguously anywhere in the second. -/
def occursIn (needle : List Char) : List Char → Bool
  | [] => leadMatch needle []
  | b :: bs => leadMatch needle (b :: bs) || occursIn needle bs

/-- Python's `x in y` on `str`/`bytes` operands: substring containment between
operands of the same type; a `TypeError` when a `bytes` pattern is tested
against a `str` (or vice versa). -/
def py_in : PyVal → PyVal → Except String Bool
  | .str a, .str b => .ok (occursIn a.toList b.toList)
  | .bytes a, .bytes b => .ok (occursIn a.toList b.toList)
  | .bytes _, .str _ => .error "TypeError: a bytes-like object is required, not str"
  | .str _, .bytes _ => .error "TypeError: argument should be integer or bytes-like object, not str"

/-- Python's `x == y` on `str`/`bytes` operands: equality within a type, `False`
across types. -/
def py_eq : PyVal → PyVal → Bool
  | .str a, .str b => a == b
  | .bytes a, .bytes b => a == b
  | _, _ => false

/-- Outcome of the `pgsql2shp` subprocess call: normal exit with its output
text, non-zero exit (`CalledProcessError` carrying the combined
stdout+stderr text), connection refusal, or wall-clock timeout. -/
inductive ProcResult where
  | success : String → ProcResult
  | calledProcessFailed : String → ProcResult
  | connectionRefused : ProcResult
  | timedOut : ProcResult
deriving DecidableEq, Repr

/-- The Python exceptions the request function can surface. -/
inductive PyError where
  | typeError : String → PyError
  | calledProcessError : PyVal → PyError
  | connectionRefusedError : PyError
  | timeoutExpired : PyError
  | valueError : PyError
deriving DecidableEq, Repr

/-- The exact text `pgsql2shp` emits when the query selects an empty table. -/
def empty_table_message : String :=
  "Initializing... \nERROR: Could not determine table metadata (empty table)\n"

/-- `request_bd_uni_for_building_shapefile` of `lidar_prod.tasks.utils`: check
the bbox against the territories, run `pgsql2shp` via
`subprocess.check_output(..., timeout=120, encoding="utf-8")` — so the caught
`CalledProcessError.output` is a decoded `str` — and test the *bytes* literal
`b"Initializing... \nERROR: ..."` for membership in it; on a hit, write an
empty shapefile and return `False`; otherwise re-raise.  Connection refusals
and timeouts are logged and re-raised. -/
def request_bd_uni_for_building_shapefile (bbox_intersects_territoire : Bool)
    (proc : ProcResult) : Except PyError Bool :=
  if !bbox_intersects_territoire then .error .valueError
  else
    match proc with
    | .success _ => .ok true
    | .calledProcessFailed out =>
      match py_in (.bytes empty_table_message) (.str out) with
      | .error msg => .error (.typeError msg)
      | .ok true => .ok false
      | .ok false => .error (.calledProcessError (.str out))
    | .connectionRefused => .error .connectionRefusedError
    | .timedOut => .error .timeoutExpired

/-- The older copy of the function in `lidar_prod.tasks.building_validation`:
`check_output` is called without `encoding`, so `e.output` is `bytes`, compared
by `==` against the same `bytes` literal; no `timeout` argument is passed and
no `TimeoutExpired` handler exists (a timeout would propagate unchanged). -/
def request_bd_uni_for_building_shapefile_legacy (proc : ProcResult) :
    Except PyError Bool :=
  match proc with
  | .success _ => .ok true
  | .calledProcessFailed out =>
    if py_eq (.bytes out) (.bytes empty_table_message) then .ok false
    else .error (.calledProcessError (.bytes out))
  | .connectionRefused => .error .connectionRefusedError
  | .timedOut => .error .timeoutExpired

theorem getPoint_of_lt {t : List PointRec} {i : ℕ} (h : i < t.length) :
    getPoint t i = t[i] := List.getD_eq_getElem t default h

theorem getPoint_of_le {t : List PointRec} {i : ℕ} (h : t.length ≤ i) :
    getPoint t i = default := by
  simp [getPoint, List.getD_eq_getElem?_getD, List.getElem?_eq_none h]

theorem groupRuns_join {α : Type _} [DecidableEq α] (l : List (ℕ × α)) :
    (groupRuns l).flatten = l := by
  induction l with
  | nil => rfl
  | cons p ps ih =>
    rw [groupRuns]
    rcases h : groupRuns ps with _ | ⟨g, gs⟩
    · rw [h] at ih; simpa using ih.symm
    · rcases g with _ | ⟨q, g⟩
      · rw [h] at ih; simpa using ih
      · rw [h] at ih
        by_cases hpq : p.2 = q.2 <;> simp [hpq] <;> simpa using ih

theorem groupRuns_ne_nil {α : Type _} [DecidableEq α] {l : List (ℕ × α)} :
    ∀ g ∈ groupRuns l, g ≠ [] := by
  induction l with
  | nil => intro g hg; simp [groupRuns] at hg
  | cons p ps ih =>
    intro g hg
    rw [groupRuns] at hg
    rcases h : groupRuns ps with _ | ⟨g', gs⟩ <;> rw [h] at hg
    · simp at hg; simp [hg]
    · rcases g' with _ | ⟨q, g'⟩
      · exact absurd rfl (ih [] (h ▸ List.mem_cons_self [] gs))
      · by_cases hpq : p.2 = q.2 <;> simp [hpq] at hg
        · rcases hg with hg | hg
          · simp [hg]
          · exact ih g (h ▸ List.mem_cons_of_mem _ hg)
        · rcases hg with hg | hg | hg
          · simp [hg]
          · simp [hg]
          · exact ih g (h ▸ List.mem_cons_of_mem _ hg)

theorem groupRuns_const {α : Type _} [DecidableEq α] {l : List (ℕ × α)} :
    ∀ g ∈ groupRuns l, ∃ v, ∀ p ∈ g, p.2 = v := by
  induction l with
  | nil => intro g hg; simp [groupRuns] at hg
  | cons p ps ih =>
    intro g hg
    rw [groupRuns] at hg
    rcases h : groupRuns ps with _ | ⟨g', gs⟩ <;> rw [h] at hg
    · simp at hg; subst hg; exact ⟨p.2, by simp⟩
    · rcases g' with _ | ⟨q, g'⟩
      · rcases List.mem_cons.1 hg with hg | hg
        · subst hg; exact ⟨p.2, by simp⟩
        · exact ih g (h ▸ List.mem_cons_of_mem _ hg)
      · by_cases hpq : p.2 = q.2 <;> simp only [hpq, if_true, if_false, reduceIte] at hg
        · rcases List.mem_cons.1 hg with hg | hg
          · subst hg
            obtain ⟨v, hv⟩ := ih (q :: g') (h ▸ List.mem_cons_self _ gs)
            refine ⟨v, ?_⟩
            intro x hx
            rcases List.mem_cons.1 hx with hx | hx
            · subst hx; rw [hpq]; exact hv q (List.mem_cons_self q g')
            · exact hv x hx
          · exact ih g (h ▸ List.mem_cons_of_mem _ hg)
        · rcases List.mem_cons.1 hg with hg | hg
          · subst hg; exact ⟨p.2, by simp⟩
          · rcases List.mem_cons.1 hg with hg | hg
            · subst hg; exact ih (q :: g') (h ▸ List.mem_cons_self _ gs)
            · exact ih g (h ▸ List.mem_cons_of_mem _ hg)

theorem groupRuns_chain {α : Type _} [LinearOrder α] {l : List (ℕ × α)}
    (hs : l.Sorted valLe) : (groupRuns l).Chain' runLt := by
  induction l with
  | nil => simp [groupRuns]
  | cons p ps ih =>
    obtain ⟨hle, hps⟩ := List.sorted_cons.1 hs
    rw [groupRuns]
    rcases h : groupRuns ps with _ | ⟨g', gs⟩
    · exact List.chain'_singleton _
    · rcases g' with _ | ⟨q, g⟩
      · exact absurd rfl (groupRuns_ne_nil [] (h ▸ List.mem_cons_self [] gs))
      · have hchain := ih hps
        rw [h] at hchain
        obtain ⟨hhead, htail⟩ := List.chain'_cons'.1 hchain
        have hq_mem : q ∈ ps := by
          have : q ∈ (groupRuns ps).flatten :=
            List.mem_flatten.2 ⟨q :: g, h ▸ List.mem_cons_self _ gs, List.mem_cons_self q g⟩
          rwa [groupRuns_join] at this
        by_cases hpq : p.2 = q.2
        · simp only [hpq, if_true, reduceIte]
          refine List.chain'_cons'.2 ⟨?_, htail⟩
          intro y hy
          obtain ⟨hy_ne, hy_lt⟩ := hhead y hy
          refine ⟨hy_ne, fun x hx z hz => ?_⟩
          rcases List.mem_cons.1 hx with hx | hx
          · subst hx; rw [hpq]; exact hy_lt q (List.mem_cons_self q g) z hz
          · exact hy_lt x hx z hz
        · simp only [hpq, if_false, reduceIte]
          refine List.chain'_cons'.2 ⟨?_, hchain⟩
          intro y hy
          simp only [List.head?_cons, Option.mem_some_iff] at hy
          subst hy
          refine ⟨by simp, fun x hx z hz => ?_⟩
          simp only [List.mem_singleton] at hx
          rw [hx]
          obtain ⟨v, hv⟩ := groupRuns_const (q :: g) (h ▸ List.mem_cons_self _ gs)
          have hzq : z.2 = q.2 := by
            rw [hv z hz, hv q (List.mem_cons_self q g)]
          have hlt : p.2 < q.2 := lt_of_le_of_ne (hle q hq_mem) hpq
          rw [hzq]; exact hlt

theorem groupRuns_pairwise {α : Type _} [LinearOrder α] {l : List (ℕ × α)}
    (hs : l.Sorted valLe) : (groupRuns l).Pairwise runLt :=
  List.chain'_iff_pairwise.mp (groupRuns_chain hs)

theorem sorted_pairs_mem {α : Type _} [LinearOrder α] {a : List α} {p : ℕ × α}
    (hp : p ∈ a.enum.insertionSort valLe) : a[p.1]? = some p.2 :=
  List.mem_enum_iff_getElem?.1 ((List.perm_insertionSort valLe a.enum).subset hp)

theorem pair_of_group {α : Type _} [LinearOrder α] {a : List α} {pg : List (ℕ × α)}
    (hpg : pg ∈ groupRuns (a.enum.insertionSort valLe)) {p : ℕ × α} (hp : p ∈ pg) :
    a[p.1]? = some p.2 := by
  apply sorted_pairs_mem
  rw [← groupRuns_join (a.enum.insertionSort valLe)]
  exact List.mem_flatten.2 ⟨pg, hpg, hp⟩

theorem split_idx_partition {α : Type _} [LinearOrder α] (a : List α) :
    (split_idx_by_dim a).flatten.Perm (List.range a.length) := by
  unfold split_idx_by_dim
  rw [← List.map_flatten, groupRuns_join]
  have h := (List.perm_insertionSort valLe a.enum).map Prod.fst
  rwa [List.enum_map_fst] at h

theorem split_idx_groups_ne_nil {α : Type _} [LinearOrder α] {a : List α} :
    ∀ g ∈ split_idx_by_dim a, g ≠ [] := by
  intro g hg
  obtain ⟨pg, hpg, rfl⟩ := List.mem_map.1 hg
  simpa using groupRuns_ne_nil pg hpg

theorem split_idx_const {α : Type _} [LinearOrder α] {a : List α} :
    ∀ g ∈ split_idx_by_dim a, ∃ v, ∀ i ∈ g, a[i]? = some v := by
  intro g hg
  obtain ⟨pg, hpg, rfl⟩ := List.mem_map.1 hg
  obtain ⟨v, hv⟩ := groupRuns_const pg hpg
  refine ⟨v, fun i hi => ?_⟩
  obtain ⟨p, hp, rfl⟩ := List.mem_map.1 hi
  rw [← hv p hp]
  exact pair_of_group hpg hp

theorem split_idx_mem_lt {α : Type _} [LinearOrder α] {a : List α} :
    ∀ g ∈ split_idx_by_dim a, ∀ i ∈ g, i < a.length := by
  intro g hg i hi
  obtain ⟨v, hv⟩ := split_idx_const g hg
  obtain ⟨h, _⟩ := List.getElem?_eq_some.1 (hv i hi)
  exact h

theorem split_idx_pairwise {α : Type _} [LinearOrder α] (a : List α) :
    (split_idx_by_dim a).Pairwise
      (fun g h => ∀ i ∈ g, ∀ j ∈ h, ∃ v w, a[i]? = some v ∧ a[j]? = some w ∧ v < w) := by
  unfold split_idx_by_dim
  rw [List.pairwise_map]
  refine (groupRuns_pairwise (List.sorted_insertionSort valLe a.enum)).imp_of_mem ?_
  intro pg qg hpg hqg hrel
  intro i hi j hj
  obtain ⟨p, hp, rfl⟩ := List.mem_map.1 hi
  obtain ⟨q, hq, rfl⟩ := List.mem_map.1 hj
  exact ⟨p.2, q.2, pair_of_group hpg hp, pair_of_group hqg hq, hrel.2 p hp q hq⟩

theorem split_idx_chain {α : Type _} [LinearOrder α] (a : List α) :
    (split_idx_by_dim a).Chain'
      (fun g h => ∀ i ∈ g, ∀ j ∈ h, ∃ v w, a[i]? = some v ∧ a[j]? = some w ∧ v < w) :=
  (split_idx_pairwise a).chain'

theorem split_idx_tail {α : Type _} [LinearOrder α] {a : List α} :
    ∀ g ∈ (split_idx_by_dim a).tail, ∀ i ∈ g, ∀ g₀ ∈ (split_idx_by_dim a).head?,
      ∀ j ∈ g₀, ∃ v w, a[j]? = some v ∧ a[i]? = some w ∧ v < w := by
  intro g hg i hi g₀ hg₀ j hj
  rcases h : split_idx_by_dim a with _ | ⟨g₀', gs⟩
  · rw [h] at hg; simp at hg
  · rw [h] at hg hg₀
    simp only [List.head?_cons, Option.mem_some_iff] at hg₀
    subst hg₀
    have hpw := split_idx_pairwise a
    rw [h] at hpw
    exact (List.pairwise_cons.1 hpw).1 g (by simpa using hg) j hj i hi

theorem split_idx_tail_pos (a : List ℕ) :
    ∀ g ∈ (split_idx_by_dim a).tail, ∀ i ∈ g, ∃ w, a[i]? = some w ∧ 0 < w := by
  intro g hg i hi
  rcases h : split_idx_by_dim a with _ | ⟨g₀, gs⟩
  · rw [h] at hg; simp at hg
  · have hg₀ : g₀ ∈ (split_idx_by_dim a).head? := by rw [h]; simp
    obtain ⟨j, hj⟩ := List.exists_mem_of_ne_nil g₀
      (split_idx_groups_ne_nil g₀ (h ▸ List.mem_cons_self g₀ gs))
    obtain ⟨v, w, _, hw, hvw⟩ := split_idx_tail g hg i hi g₀ hg₀ j hj
    exact ⟨w, hw, lt_of_le_of_lt (Nat.zero_le v) hvw⟩

theorem split_idx_tail_gt_min (a : List ℕ) {m : ℕ} (hmin : ∀ w ∈ a, m ≤ w) :
    ∀ g ∈ (split_idx_by_dim a).tail, ∀ i ∈ g, ∀ v, a[i]? = some v → m < v := by
  intro g hg i hi v hv
  rcases h : split_idx_by_dim a with _ | ⟨g₀, gs⟩
  · rw [h] at hg; simp at hg
  · have hg₀ : g₀ ∈ (split_idx_by_dim a).head? := by rw [h]; simp
    obtain ⟨j, hj⟩ := List.exists_mem_of_ne_nil g₀
      (split_idx_groups_ne_nil g₀ (h ▸ List.mem_cons_self g₀ gs))
    obtain ⟨v', w, hv', hw, hvw⟩ := split_idx_tail g hg i hi g₀ hg₀ j hj
    have hmv : m ≤ v' := by
      refine hmin v' ?_
      obtain ⟨hlt, heq⟩ := List.getElem?_eq_some.1 hv'
      exact heq ▸ List.getElem_mem hlt
    rw [hv] at hw
    exact lt_of_le_of_lt hmv (Option.some_injective _ hw ▸ hvw)

theorem sum_eq_count_ones {l : List ℚ} (h : ∀ o ∈ l, o = 0 ∨ o = 1) :
    l.sum = (l.countP (fun o => decide (o = 1)) : ℚ) := by
  induction l with
  | nil => simp
  | cons o l ih =>
    have ih' := ih (fun x hx => h x (List.mem_cons_of_mem _ hx))
    rcases h o (List.mem_cons_self o l) with ho | ho <;> subst ho <;>
      simp [List.countP_cons, ih'] <;> push_cast <;> ring

theorem mean_q_eq_frac_ones {l : List ℚ} (h : ∀ o ∈ l, o = 0 ∨ o = 1) :
    mean_q l = frac_true (l.map (fun o => decide (o = 1))) := by
  unfold mean_q frac_true
  rw [List.countP_map, List.length_map, sum_eq_count_ones h]
  rfl

theorem length_set_classification (value : ℕ) (pts_idx : List ℕ) (las : List PointRec) :
    (set_classification value pts_idx las).length = las.length := by
  simp [set_classification, List.enum_length]

theorem getPoint_map_struct {f : PointRec → PointRec} {t : List PointRec} {i : ℕ}
    (h : i < t.length) : getPoint (t.map f) i = f (getPoint t i) := by
  rw [getPoint_of_lt (by simpa using h), getPoint_of_lt h, List.getElem_map]

theorem getPoint_set_classification_lt {value : ℕ} {pts_idx : List ℕ} {las : List PointRec}
    {i : ℕ} (h : i < las.length) :
    getPoint (set_classification value pts_idx las) i =
      if i ∈ pts_idx then { getPoint las i with classification := value } else getPoint las i := by
  have hlen : i < (set_classification value pts_idx las).length := by
    rwa [length_set_classification]
  rw [getPoint_of_lt hlen, getPoint_of_lt h]
  simp only [set_classification, List.getElem_map, List.getElem_enum]

theorem getPoint_set_classification_not_mem {value : ℕ} {pts_idx : List ℕ}
    {las : List PointRec} {i : ℕ} (h : i ∉ pts_idx) :
    getPoint (set_classification value pts_idx las) i = getPoint las i := by
  rcases lt_or_le i las.length with hi | hi
  · rw [getPoint_set_classification_lt hi, if_neg h]
  · rw [getPoint_of_le (by rwa [length_set_classification]), getPoint_of_le hi]

theorem getPoint_set_classification_mem {value : ℕ} {pts_idx : List ℕ}
    {las : List PointRec} {i : ℕ} (h : i ∈ pts_idx) (hi : i < las.length) :
    getPoint (set_classification value pts_idx las) i =
      { getPoint las i with classification := value } := by
  rw [getPoint_set_classification_lt hi, if_pos h]

theorem length_decision_loop (d : BuildingValidationClusterInfo → ℕ)
    (gs : List (List ℕ)) (t : List PointRec) :
    (decision_loop d gs t).length = t.length := by
  induction gs generalizing t with
  | nil => rfl
  | cons g gs ih => simp [decision_loop] at ih ⊢; rw [ih, length_set_classification]

theorem getPoint_decision_loop_not_mem {d : BuildingValidationClusterInfo → ℕ}
    {gs : List (List ℕ)} {t : List PointRec} {i : ℕ} (h : ∀ g ∈ gs, i ∉ g) :
    getPoint (decision_loop d gs t) i = getPoint t i := by
  induction gs generalizing t with
  | nil => rfl
  | cons g gs ih =>
    simp only [decision_loop, List.foldl_cons] at ih ⊢
    rw [ih (fun g' hg' => h g' (List.mem_cons_of_mem _ hg')),
      getPoint_set_classification_not_mem (h g (List.mem_cons_self g gs))]

theorem shape_eq_fields {p q : PointRec} (h : shape p = shape q) :
    p.candidate_flag = q.candidate_flag ∧ p.cluster_id_pdal = q.cluster_id_pdal ∧
    p.cluster_id_candidates = q.cluster_id_candidates ∧
    p.cluster_id_isolated_plus_confirmed = q.cluster_id_isolated_plus_confirmed ∧
    p.building_proba = q.building_proba ∧ p.db_overlay = q.db_overlay ∧
    p.entropy = q.entropy := by
  simpa [shape, Prod.ext_iff] using h

theorem point_eq_of_shape {p q : PointRec} (hs : shape p = shape q)
    (hc : p.classification = q.classification) : p = q := by
  obtain ⟨h1, h2, h3, h4, h5, h6, h7⟩ := shape_eq_fields hs
  ext <;> assumption

theorem map_shape_set_classification (value : ℕ) (pts_idx : List ℕ) (las : List PointRec) :
    (set_classification value pts_idx las).map shape = las.map shape := by
  apply List.ext_getElem
  · simp [length_set_classification]
  · intro i h1 h2
    simp only [List.getElem_map, set_classification, List.getElem_enum]
    split <;> rfl

theorem map_shape_preset (nb : ℕ) (t : List PointRec) :
    (preset_candidates nb t).map shape = t.map shape := by
  unfold preset_candidates
  rw [List.map_map]
  apply List.map_congr_left
  intro p _
  simp only [Function.comp_apply]
  split <;> rfl

theorem map_shape_decision_loop (d : BuildingValidationClusterInfo → ℕ)
    (gs : List (List ℕ)) (t : List PointRec) :
    (decision_loop d gs t).map shape = t.map shape := by
  induction gs generalizing t with
  | nil => rfl
  | cons g gs ih =>
    simp only [decision_loop, List.foldl_cons] at ih ⊢
    rw [ih, map_shape_set_classification]

theorem length_eq_of_map_shape {t u : List PointRec} (h : t.map shape = u.map shape) :
    t.length = u.length := by
  have := congrArg List.length h
  simpa using this

theorem getPoint_shape_eq {t u : List PointRec} (h : t.map shape = u.map shape) (i : ℕ) :
    shape (getPoint t i) = shape (getPoint u i) := by
  have hlen := length_eq_of_map_shape h
  rcases lt_or_le i t.length with hi | hi
  · have hiu : i < u.length := hlen ▸ hi
    have h' := congrArg (fun l => l[i]?) h
    simp only [List.getElem?_map, List.getElem?_eq_getElem hi, List.getElem?_eq_getElem hiu,
      Option.map_some'] at h'
    rw [getPoint_of_lt hi, getPoint_of_lt hiu]
    exact Option.some_injective _ h'
  · rw [getPoint_of_le hi, getPoint_of_le (hlen ▸ hi)]

theorem extract_info_congr {t u : List PointRec} (h : t.map shape = u.map shape)
    (g : List ℕ) :
    (extract_cluster_info_by_idx t g).probabilities =
        (extract_cluster_info_by_idx u g).probabilities ∧
    (extract_cluster_info_by_idx t g).overlays = (extract_cluster_info_by_idx u g).overlays ∧
    (extract_cluster_info_by_idx t g).entropies =
        (extract_cluster_info_by_idx u g).entropies := by
  refine ⟨List.map_congr_left fun i _ => ?_, List.map_congr_left fun i _ => ?_,
    List.map_congr_left fun i _ => ?_⟩ <;>
    obtain ⟨h1, h2, h3, h4, h5, h6, h7⟩ := shape_eq_fields (getPoint_shape_eq h i) <;>
    assumption

theorem decision_loop_congr {d : BuildingValidationClusterInfo → ℕ}
    (hblind : ∀ i₁ i₂ : BuildingValidationClusterInfo,
      i₁.probabilities = i₂.probabilities → i₁.overlays = i₂.overlays →
      i₁.entropies = i₂.entropies → d i₁ = d i₂) :
    ∀ (gs : List (List ℕ)) (t u : List PointRec), t.map shape = u.map shape →
      (∀ i, (∀ g ∈ gs, i ∉ g) →
        (getPoint t i).classification = (getPoint u i).classification) →
      decision_loop d gs t = decision_loop d gs u := by
  intro gs
  induction gs with
  | nil =>
    intro t u hsh hclf
    apply List.ext_getElem (length_eq_of_map_shape hsh)
    intro i h1 h2
    rw [← getPoint_of_lt h1, ← getPoint_of_lt h2]
    exact point_eq_of_shape (getPoint_shape_eq hsh i) (hclf i (by simp))
  | cons g gs ih =>
    intro t u hsh hclf
    have hlen := length_eq_of_map_shape hsh
    simp only [decision_loop, List.foldl_cons]
    obtain ⟨hp, ho, he⟩ := extract_info_congr hsh g
    have hcode : d (extract_cluster_info_by_idx t g) = d (extract_cluster_info_by_idx u g) :=
      hblind _ _ hp ho he
    rw [hcode]
    apply ih
    · rw [map_shape_set_classification, map_shape_set_classification]
      exact hsh
    · intro i hi
      by_cases hig : i ∈ g
      · rcases lt_or_le i t.length with hil | hil
        · rw [getPoint_set_classification_mem hig hil,
            getPoint_set_classification_mem hig (hlen ▸ hil)]
        · rw [getPoint_of_le (by rwa [length_set_classification]),
            getPoint_of_le (by rw [length_set_classification]; exact hlen ▸ hil)]
      · rw [getPoint_set_classification_not_mem hig,
          getPoint_set_classification_not_mem hig]
        refine hclf i (fun g' hg' => ?_)
        rcases List.mem_cons.1 hg' with hg' | hg'
        · exact hg' ▸ hig
        · exact hi g' hg'

theorem length_preset (nb : ℕ) (t : List PointRec) :
    (preset_candidates nb t).length = t.length := by
  simp [preset_candidates]

theorem getPoint_preset_lt {nb : ℕ} {t : List PointRec} {i : ℕ} (h : i < t.length) :
    getPoint (preset_candidates nb t) i =
      if (getPoint t i).candidate_flag = 1 then
        { getPoint t i with classification := nb }
      else getPoint t i :=
  getPoint_map_struct h

theorem map_cid_preset (nb : ℕ) (t : List PointRec) :
    (preset_candidates nb t).map (fun p => p.cluster_id_candidates) =
      t.map (fun p => p.cluster_id_candidates) := by
  unfold preset_candidates
  rw [List.map_map]
  apply List.map_congr_left
  intro p _
  simp only [Function.comp_apply]
  split <;> rfl

theorem map_cid_eq_of_map_shape {t u : List PointRec} (h : t.map shape = u.map shape) :
    t.map (fun p => p.cluster_id_candidates) = u.map (fun p => p.cluster_id_candidates) := by
  apply List.ext_getElem (by simpa using length_eq_of_map_shape h)
  intro i h1 h2
  simp only [List.getElem_map]
  rw [← getPoint_of_lt (by simpa using h1), ← getPoint_of_lt (by simpa using h2)]
  exact (shape_eq_fields (getPoint_shape_eq h i)).2.2.1

/-- An index of a group kept by `split_idx[1:]` over the candidate cluster-id
dimension always carries a strictly positive cluster id. -/
theorem tail_group_cid_pos {t : List PointRec} {g : List ℕ} {i : ℕ}
    (hg : g ∈ (split_idx_by_dim (t.map (fun p => p.cluster_id_candidates))).tail)
    (hi : i ∈ g) :
    i < t.length ∧ 0 < (getPoint t i).cluster_id_candidates := by
  obtain ⟨w, hw, hwpos⟩ := split_idx_tail_pos (t.map (fun p => p.cluster_id_candidates)) g hg i hi
  obtain ⟨hlt, heq⟩ := List.getElem?_eq_some.1 hw
  have hlen : i < t.length := by simpa using hlt
  refine ⟨hlen, ?_⟩
  rw [List.getElem_map] at heq
  rw [getPoint_of_lt hlen]
  exact heq ▸ hwpos

/-- `BuildingValidator.update` leaves every point that the per-cluster loop does
not touch with its preset-step record; a point whose candidate cluster id is
not strictly positive is never touched. -/
theorem update_getPoint_of_cid_zero {d : BuildingValidationClusterInfo → ℕ} {nb : ℕ}
    {t : List PointRec} {i : ℕ} (hcid : (getPoint t i).cluster_id_candidates = 0) :
    getPoint (BuildingValidator.update d nb t) i = getPoint (preset_candidates nb t) i := by
  unfold BuildingValidator.update
  apply getPoint_decision_loop_not_mem
  intro g hg hig
  rw [map_cid_preset] at hg
  obtain ⟨_, hpos⟩ := tail_group_cid_pos hg hig
  omega

/-- Blindness of the decision functions to the `target` slot: the detailed
decision reads only the probability, overlay and entropy arrays. -/
theorem make_detailed_group_decision_blind (th : thresholds) (codes : DetailedCodes)
    (i₁ i₂ : BuildingValidationClusterInfo)
    (hp : i₁.probabilities = i₂.probabilities) (ho : i₁.overlays = i₂.overlays)
    (he : i₁.entropies = i₂.entropies) :
    make_detailed_group_decision th codes i₁ = make_detailed_group_decision th codes i₂ := by
  cases i₁
  cases i₂
  simp only at hp ho he
  subst hp; subst ho; subst he
  rfl

theorem decision_function_blind (use_final : Bool) (m : ℕ → ℕ) (th : thresholds)
    (codes : DetailedCodes) (i₁ i₂ : BuildingValidationClusterInfo)
    (hp : i₁.probabilities = i₂.probabilities) (ho : i₁.overlays = i₂.overlays)
    (he : i₁.entropies = i₂.entropies) :
    decision_function use_final m th codes i₁ = decision_function use_final m th codes i₂ := by
  unfold decision_function
  split
  · exact congrArg m (make_detailed_group_decision_blind th codes i₁ i₂ hp ho he)
  · exact make_detailed_group_decision_blind th codes i₁ i₂ hp ho he

theorem map_shape_update (d : BuildingValidationClusterInfo → ℕ) (nb : ℕ)
    (t : List PointRec) :
    (BuildingValidator.update d nb t).map shape = t.map shape := by
  unfold BuildingValidator.update
  rw [map_shape_decision_loop, map_shape_preset]

/-- Idempotence of `BuildingValidator.update` for any decision function that is
blind to the `target` slot. -/
theorem update_idempotent_of_blind {d : BuildingValidationClusterInfo → ℕ}
    (hblind : ∀ i₁ i₂ : BuildingValidationClusterInfo,
      i₁.probabilities = i₂.probabilities → i₁.overlays = i₂.overlays →
      i₁.entropies = i₂.entropies → d i₁ = d i₂) (nb : ℕ) (t : List PointRec) :
    BuildingValidator.update d nb (BuildingValidator.update d nb t) =
      BuildingValidator.update d nb t := by
  have hsh_t' : (BuildingValidator.update d nb t).map shape = t.map shape :=
    map_shape_update d nb t
  have hcid : (BuildingValidator.update d nb t).map (fun p => p.cluster_id_candidates) =
      t.map (fun p => p.cluster_id_candidates) := map_cid_eq_of_map_shape hsh_t'
  conv_lhs => rw [BuildingValidator.update]
  rw [map_cid_preset, hcid, ← map_cid_preset nb t]
  have hgoal : decision_loop d
      ((split_idx_by_dim ((preset_candidates nb t).map (fun p => p.cluster_id_candidates))).tail)
      (preset_candidates nb (BuildingValidator.update d nb t)) = BuildingValidator.update d nb t := by
    conv_rhs => rw [BuildingValidator.update]
    apply decision_loop_congr hblind
    · rw [map_shape_preset, hsh_t', map_shape_preset]
    · intro i hi
      rcases lt_or_le i t.length with hil | hil
      · have hil' : i < (BuildingValidator.update d nb t).length := by
          have := length_eq_of_map_shape hsh_t'
          omega
        rw [getPoint_preset_lt hil', getPoint_preset_lt hil]
        have hflag : (getPoint (BuildingValidator.update d nb t) i).candidate_flag =
            (getPoint t i).candidate_flag :=
          (shape_eq_fields (getPoint_shape_eq hsh_t' i)).1
        rw [hflag]
        by_cases hf : (getPoint t i).candidate_flag = 1
        · rw [if_pos hf, if_pos hf]
        · rw [if_neg hf, if_neg hf]
          have huntouched : getPoint (BuildingValidator.update d nb t) i =
              getPoint (preset_candidates nb t) i := by
            unfold BuildingValidator.update
            exact getPoint_decision_loop_not_mem hi
          rw [huntouched, getPoint_preset_lt hil, if_neg hf]
      · rw [getPoint_of_le (by rw [length_preset]; exact (length_eq_of_map_shape hsh_t') ▸ hil),
          getPoint_of_le (by rwa [length_preset])]
  exact hgoal

theorem getPoint_cons_zero (p : PointRec) (l : List PointRec) : getPoint (p :: l) 0 = p := rfl

theorem getPoint_cons_succ (p : PointRec) (l : List PointRec) (i : ℕ) :
    getPoint (p :: l) (i + 1) = getPoint l i := rfl

theorem length_cluster_where (sel : PointRec → Bool) :
    ∀ (ids : List ℕ) (t : List PointRec), (cluster_where sel ids t).length = t.length := by
  intro ids t
  induction t generalizing ids with
  | nil => rfl
  | cons p ps ih => unfold cluster_where; split <;> simp [ih]

theorem getPoint_cluster_where {sel : PointRec → Bool} :
    ∀ {t : List PointRec} (ids : List ℕ) {i : ℕ}, i < t.length →
      ∃ v, getPoint (cluster_where sel ids t) i =
          { getPoint t i with cluster_id_pdal := v } ∧
        (v ≠ 0 → sel (getPoint t i) = true) := by
  intro t
  induction t with
  | nil => intro ids i h; simp at h
  | cons p ps ih =>
    intro ids i h
    cases i with
    | zero =>
      unfold cluster_where
      by_cases hsel : sel p
      · refine ⟨ids.headD 0, ?_, fun _ => by simpa [getPoint_cons_zero] using hsel⟩
        simp [hsel, getPoint_cons_zero]
      · exact ⟨0, by simp [hsel, getPoint_cons_zero], fun hv => absurd rfl hv⟩
    | succ i =>
      have h' : i < ps.length := by simpa using h
      unfold cluster_where
      by_cases hsel : sel p
      · simpa [hsel, getPoint_cons_succ] using ih ids.tail h'
      · simpa [hsel, getPoint_cons_succ] using ih ids h'

theorem getPoint_overlay_write {f : ℕ → ℚ} {t : List PointRec} {i : ℕ} (h : i < t.length) :
    getPoint (t.enum.map (fun ip => { ip.2 with db_overlay := f ip.1 })) i =
      { getPoint t i with db_overlay := f i } := by
  rw [getPoint_of_lt (by simp only [List.length_map, List.enum_length]; exact h),
    getPoint_of_lt h]
  simp [List.getElem_map, List.getElem_enum]

theorem length_prepare (cc : List ℕ) (fn : List PointRec → List ℕ) (b : Bool)
    (ov : ℕ → ℚ) (t : List PointRec) :
    (BuildingValidator.prepare cc fn b ov t).length = t.length := by
  unfold BuildingValidator.prepare
  split <;> simp [pdal_filter_cluster, length_cluster_where, List.enum_length]

/-- The record written by `BuildingValidator.prepare` at a point inside the
tile: flag from the candidate-code set, `ClusterID` reset to 0, the candidate
cluster id ferried from the cluster filter (positive only if the point was
selected, i.e. flagged), the overlay from the oracle when the vector database
had buildings, everything else untouched. -/
theorem getPoint_prepare {cc : List ℕ} {fn : List PointRec → List ℕ} {b : Bool}
    {ov : ℕ → ℚ} {t : List PointRec} {i : ℕ} (hi : i < t.length) :
    ∃ v, getPoint (BuildingValidator.prepare cc fn b ov t) i =
        { getPoint t i with
            candidate_flag := if (getPoint t i).classification ∈ cc then 1 else 0,
            cluster_id_pdal := 0,
            cluster_id_candidates := v,
            db_overlay := if b then ov i else 0 } ∧
      (v ≠ 0 → ((if (getPoint t i).classification ∈ cc then 1 else 0) : ℕ) = 1) := by
  unfold BuildingValidator.prepare
  set t1 := t.map
    (fun p => { p with candidate_flag := if p.classification ∈ cc then 1 else 0 }) with ht1
  have h1 : i < t1.length := by rw [ht1, List.length_map]; exact hi
  have hgp1 : getPoint t1 i =
      { getPoint t i with
          candidate_flag := if (getPoint t i).classification ∈ cc then 1 else 0 } := by
    rw [ht1]; exact getPoint_map_struct hi
  set t2 := pdal_filter_cluster (fun p => p.candidate_flag == 1) fn t1 with ht2
  have h2 : i < t2.length := by
    rw [ht2]; unfold pdal_filter_cluster; rw [length_cluster_where]; exact h1
  obtain ⟨v, hv, hvsel⟩ : ∃ v, getPoint t2 i = { getPoint t1 i with cluster_id_pdal := v } ∧
      (v ≠ 0 → ((getPoint t1 i).candidate_flag == 1) = true) := by
    rw [ht2]; unfold pdal_filter_cluster; exact getPoint_cluster_where _ h1
  set t3 := t2.map (fun p => { p with cluster_id_candidates := p.cluster_id_pdal }) with ht3
  have h3 : i < t3.length := by rw [ht3, List.length_map]; exact h2
  have hgp3 : getPoint t3 i =
      { getPoint t2 i with cluster_id_candidates := (getPoint t2 i).cluster_id_pdal } := by
    rw [ht3]; exact getPoint_map_struct h2
  set t4 := t3.map (fun p => { p with cluster_id_pdal := 0 }) with ht4
  have h4 : i < t4.length := by rw [ht4, List.length_map]; exact h3
  have hgp4 : getPoint t4 i = { getPoint t3 i with cluster_id_pdal := 0 } := by
    rw [ht4]; exact getPoint_map_struct h3
  set t5 := t4.map (fun p => { p with db_overlay := 0 }) with ht5
  have h5 : i < t5.length := by rw [ht5, List.length_map]; exact h4
  have hgp5 : getPoint t5 i = { getPoint t4 i with db_overlay := 0 } := by
    rw [ht5]; exact getPoint_map_struct h4
  refine ⟨v, ?_, ?_⟩
  · split
    · rw [getPoint_overlay_write h5, hgp5, hgp4, hgp3, hv, hgp1]
    · rw [hgp5, hgp4, hgp3, hv, hgp1]
  · intro hv0
    have := hvsel hv0
    rw [hgp1] at this
    simpa using this

theorem default_point_classification : (default : PointRec).classification = 0 := rfl

theorem default_point_flag : (default : PointRec).candidate_flag = 0 := rfl

theorem default_point_cid : (default : PointRec).cluster_id_candidates = 0 := rfl

/-- `BuildingValidator.update` does not touch a point whose `candidate_flag` is
not 1, provided positive candidate cluster ids only occur on flagged points
(which `prepare` guarantees). -/
theorem update_preserves_noncandidate {d : BuildingValidationClusterInfo → ℕ} {nb : ℕ}
    {t : List PointRec} {i : ℕ}
    (hinv : ∀ j, 0 < (getPoint t j).cluster_id_candidates → (getPoint t j).candidate_flag = 1)
    (hflag : (getPoint t i).candidate_flag ≠ 1) :
    getPoint (BuildingValidator.update d nb t) i = getPoint t i := by
  have huntouched : getPoint (BuildingValidator.update d nb t) i =
      getPoint (preset_candidates nb t) i := by
    unfold BuildingValidator.update
    apply getPoint_decision_loop_not_mem
    intro g hg hig
    rw [map_cid_preset] at hg
    obtain ⟨_, hpos⟩ := tail_group_cid_pos hg hig
    exact hflag (hinv i hpos)
  rw [huntouched]
  rcases lt_or_le i t.length with hi | hi
  · rw [getPoint_preset_lt hi, if_neg hflag]
  · rw [getPoint_of_le (by rwa [length_preset]), getPoint_of_le hi]

/-- A candidate point with cluster id 0 (noise) ends `BuildingValidator.update`
at the preset `not_building` code. -/
theorem update_noise_classification {d : BuildingValidationClusterInfo → ℕ} {nb : ℕ}
    {t : List PointRec} {i : ℕ} (hflag : (getPoint t i).candidate_flag = 1)
    (hcid : (getPoint t i).cluster_id_candidates = 0) :
    (getPoint (BuildingValidator.update d nb t) i).classification = nb := by
  rw [update_getPoint_of_cid_zero hcid]
  rcases lt_or_le i t.length with hi | hi
  · rw [getPoint_preset_lt hi, if_pos hflag]
  · rw [getPoint_of_le hi] at hflag
    rw [default_point_flag] at hflag
    exact absurd hflag (by omega)

theorem completor_fold_mono (building : ℕ) :
    ∀ (gs : List (List ℕ)) (t : List PointRec) (i : ℕ),
      (getPoint t i).classification = building →
      (getPoint (gs.foldl
          (fun las pts_idx =>
            if building ∈ pts_idx.map (fun j => (getPoint las j).classification) then
              set_classification building pts_idx las
            else las)
          t) i).classification = building := by
  intro gs
  induction gs with
  | nil => intro t i h; exact h
  | cons g gs ih =>
    intro t i h
    simp only [List.foldl_cons]
    apply ih
    split
    · by_cases hig : i ∈ g
      · rcases lt_or_le i t.length with hi | hi
        · rw [getPoint_set_classification_mem hig hi]
        · rw [getPoint_of_le (by rwa [length_set_classification])]
          rw [getPoint_of_le hi] at h
          exact h
      · rw [getPoint_set_classification_not_mem hig]; exact h
    · exact h

theorem length_pdal_filter_cluster (sel : PointRec → Bool) (fn : List PointRec → List ℕ)
    (t : List PointRec) : (pdal_filter_cluster sel fn t).length = t.length := by
  unfold pdal_filter_cluster; exact length_cluster_where _ _ _

theorem completor_prepare_general (sel : PointRec → Bool) (fn : List PointRec → List ℕ)
    (t : List PointRec) (i : ℕ) :
    (getPoint (((pdal_filter_cluster sel fn t).map
        (fun p => { p with cluster_id_isolated_plus_confirmed := p.cluster_id_pdal })).map
        (fun p => { p with cluster_id_pdal := 0 })) i).classification =
      (getPoint t i).classification := by
  rcases lt_or_le i t.length with hi | hi
  · have h2 : i < (pdal_filter_cluster sel fn t).length := by
      rw [length_pdal_filter_cluster]; exact hi
    obtain ⟨v, hv, _⟩ : ∃ v, getPoint (pdal_filter_cluster sel fn t) i =
        { getPoint t i with cluster_id_pdal := v } ∧ (v ≠ 0 → sel (getPoint t i) = true) := by
      unfold pdal_filter_cluster; exact getPoint_cluster_where _ hi
    rw [getPoint_map_struct (by rw [List.length_map]; exact h2),
      getPoint_map_struct h2, hv]
  · rw [getPoint_of_le (by simp [length_pdal_filter_cluster]; exact hi),
      getPoint_of_le hi]

theorem completor_prepare_classification (building : ℕ) (pi rho : ℚ)
    (fn : List PointRec → List ℕ) (t : List PointRec) (i : ℕ) :
    (getPoint (BuildingCompletor.prepare_for_building_completion building pi rho fn t)
        i).classification = (getPoint t i).classification := by
  unfold BuildingCompletor.prepare_for_building_completion
  exact completor_prepare_general _ fn t i

/-- `BuildingCompletor.run` never demotes a final-building point. -/
theorem completor_run_mono {building : ℕ} {pi rho : ℚ} {fn : List PointRec → List ℕ}
    {t : List PointRec} {i : ℕ} (h : (getPoint t i).classification = building) :
    (getPoint (BuildingCompletor.run building pi rho fn t) i).classification = building := by
  unfold BuildingCompletor.run BuildingCompletor.update_classification
  apply completor_fold_mono
  rw [completor_prepare_classification]
  exact h

/-- After `prepare`, a strictly positive candidate cluster id only occurs on a
point whose `candidate_flag` is 1 (shared helper for the claims below). -/
theorem prepare_cid_pos_flag {cc : List ℕ} {fn : List PointRec → List ℕ} {b : Bool}
    {ov : ℕ → ℚ} {tile : List PointRec} (j : ℕ)
    (hpos : 0 < (getPoint (BuildingValidator.prepare cc fn b ov tile) j).cluster_id_candidates) :
    (getPoint (BuildingValidator.prepare cc fn b ov tile) j).candidate_flag = 1 := by
  rcases lt_or_le j tile.length with hj | hj
  · obtain ⟨v, hv, hsel⟩ := @getPoint_prepare cc fn b ov tile j hj
    rw [hv] at hpos ⊢
    simp only at hpos ⊢
    exact hsel (by omega)
  · rw [getPoint_of_le (by rw [length_prepare]; exact hj), default_point_cid] at hpos
    omega

/-- C1: for every cluster of candidate points — non-empty probability and
entropy arrays, an overlay array of 0/1 values aligned with the probabilities —
and any threshold record, the detailed decision computed during
`Validator.update` equals the first matching rule of the specification's
decision tree (unsure_by_entropy, then refutation with or without overlay, then
confirmation with or without overlay, then db_overlayed_only, else
both_unsure). -/
theorem C1_detailed_decision_matches_spec_tree (th : thresholds) (codes : DetailedCodes)
    (infos : BuildingValidationClusterInfo)
    (hp : infos.probabilities ≠ []) (he : infos.entropies ≠ [])
    (hlen : infos.overlays.length = infos.probabilities.length)
    (h01 : ∀ o ∈ infos.overlays, o = 0 ∨ o = 1) :
    make_detailed_group_decision th codes infos = spec_detailed_group_decision th codes infos := by
  have hflag_eq : (infos.probabilities.zip infos.overlays).map
      (fun po => decide (th.min_confidence_confirmation ≤ po.1) ||
        (decide (po.2 ≠ 0) && decide (th.min_confidence_confirmation *
          th.min_frac_confirmation_factor_if_bd_uni_overlay ≤ po.1))) =
    (infos.probabilities.zip infos.overlays).map
      (fun po => decide (th.min_confidence_confirmation ≤ po.1) ||
        (decide (po.2 = 1) && decide (th.min_confidence_confirmation *
          th.min_frac_confirmation_factor_if_bd_uni_overlay ≤ po.1))) := by
    apply List.map_congr_left
    rintro ⟨p, o⟩ hpo
    have ho := h01 o (List.mem_zip hpo).2
    rcases ho with rfl | rfl <;> norm_num
  unfold make_detailed_group_decision spec_detailed_group_decision
  simp only [decide_eq_true_eq]
  rw [mean_q_eq_frac_ones h01, hflag_eq]

/-- C1 witness: a concrete one-point cluster under overlay with high
probability and zero entropy is decided identically by the code's decision
function and by the specification's tree. -/
theorem C1_witness :
    (([9/10] : List ℚ) ≠ [] ∧ ([0] : List ℚ) ≠ [] ∧
      ([(1 : ℚ)] : List ℚ).length = ([9/10] : List ℚ).length ∧
      (∀ o ∈ ([(1 : ℚ)] : List ℚ), o = 0 ∨ o = 1)) ∧
    make_detailed_group_decision ⟨1/2, 1/2, 7/10, 1/2, 1/2, 1/2, 1/2, 1/2⟩
        ⟨200, 201, 202, 203, 204, 205, 206⟩ ⟨[9/10], [1], [0], [6]⟩ =
      spec_detailed_group_decision ⟨1/2, 1/2, 7/10, 1/2, 1/2, 1/2, 1/2, 1/2⟩
        ⟨200, 201, 202, 203, 204, 205, 206⟩ ⟨[9/10], [1], [0], [6]⟩ :=
  ⟨⟨by decide, by decide, by decide, by decide⟩,
    C1_detailed_decision_matches_spec_tree _ _ ⟨[9/10], [1], [0], [6]⟩
      (by decide) (by decide) (by decide) (by decide)⟩

/-- C3: after `Validator.prepare` on any tile, every point with a strictly
positive candidate cluster id has `candidate_flag = 1`: clustering is restricted
by the `where` clause to flagged candidates, and non-selected points keep the
freshly created `ClusterID` at 0, so no non-candidate ever receives a positive
candidate-cluster id. -/
theorem C3_prepare_cluster_subset (cc : List ℕ) (fn : List PointRec → List ℕ) (b : Bool)
    (ov : ℕ → ℚ) (tile : List PointRec) (i : ℕ)
    (hpos : 0 < (getPoint (BuildingValidator.prepare cc fn b ov tile) i).cluster_id_candidates) :
    (getPoint (BuildingValidator.prepare cc fn b ov tile) i).candidate_flag = 1 :=
  prepare_cid_pos_flag i hpos

/-- C3 witness: a concrete one-point candidate tile clustered with id 1. -/
theorem C3_witness :
    0 < (getPoint (BuildingValidator.prepare [6] (fun _ => [1]) false (fun _ => 0)
        [{ classification := 6, candidate_flag := 0, cluster_id_pdal := 0,
           cluster_id_candidates := 0, cluster_id_isolated_plus_confirmed := 0,
           building_proba := 9/10, db_overlay := 0, entropy := 0 }])
        0).cluster_id_candidates ∧
    (getPoint (BuildingValidator.prepare [6] (fun _ => [1]) false (fun _ => 0)
        [{ classification := 6, candidate_flag := 0, cluster_id_pdal := 0,
           cluster_id_candidates := 0, cluster_id_isolated_plus_confirmed := 0,
           building_proba := 9/10, db_overlay := 0, entropy := 0 }])
        0).candidate_flag = 1 :=
  ⟨by decide, C3_prepare_cluster_subset [6] (fun _ => [1]) false (fun _ => 0) _ 0 (by decide)⟩

/-- C2: on a prepared tile, `Validator.update` leaves the classification of
every point whose `candidate_flag` is not 1 equal to its value before the call;
only candidate points can be rewritten.  (The preset step only touches flagged
points, and every group the per-cluster loop touches has a positive cluster id,
which after `prepare` only flagged points carry.) -/
theorem C2_update_preserves_noncandidates (cc : List ℕ) (fn : List PointRec → List ℕ)
    (b : Bool) (ov : ℕ → ℚ) (tile : List PointRec)
    (d : BuildingValidationClusterInfo → ℕ) (nb : ℕ) (i : ℕ)
    (hflag : (getPoint (BuildingValidator.prepare cc fn b ov tile) i).candidate_flag ≠ 1) :
    (getPoint (BuildingValidator.update d nb (BuildingValidator.prepare cc fn b ov tile))
        i).classification =
      (getPoint (BuildingValidator.prepare cc fn b ov tile) i).classification := by
  rw [update_preserves_noncandidate (fun j hj => prepare_cid_pos_flag j hj) hflag]

/-- C2 witness: a non-candidate point (classification 1 with candidate codes
[6]) keeps its classification through prepare + update. -/
theorem C2_witness :
    (getPoint (BuildingValidator.prepare [6] (fun _ => [1]) false (fun _ => 0)
        [{ classification := 1, candidate_flag := 0, cluster_id_pdal := 0,
           cluster_id_candidates := 0, cluster_id_isolated_plus_confirmed := 0,
           building_proba := 2/10, db_overlay := 0, entropy := 0 }])
        0).candidate_flag ≠ 1 ∧
    (getPoint (BuildingValidator.update (fun _ => 99) 35
        (BuildingValidator.prepare [6] (fun _ => [1]) false (fun _ => 0)
          [{ classification := 1, candidate_flag := 0, cluster_id_pdal := 0,
             cluster_id_candidates := 0, cluster_id_isolated_plus_confirmed := 0,
             building_proba := 2/10, db_overlay := 0, entropy := 0 }]))
        0).classification =
      (getPoint (BuildingValidator.prepare [6] (fun _ => [1]) false (fun _ => 0)
          [{ classification := 1, candidate_flag := 0, cluster_id_pdal := 0,
             cluster_id_candidates := 0, cluster_id_isolated_plus_confirmed := 0,
             building_proba := 2/10, db_overlay := 0, entropy := 0 }])
        0).classification :=
  ⟨by decide, C2_update_preserves_noncandidates [6] (fun _ => [1]) false (fun _ => 0) _
    (fun _ => 99) 35 0 (by decide)⟩

/-- C4: after `Validator.update` on a prepared tile, every candidate point that
belongs to no cluster (flag 1, cluster id 0) carries the final `not_building`
code: the preset writes it and the per-cluster loop never touches an index
whose cluster id is 0, because the group of the smallest id — here 0 — is the
dropped first group. -/
theorem C4_noise_candidates_get_not_building (cc : List ℕ) (fn : List PointRec → List ℕ)
    (b : Bool) (ov : ℕ → ℚ) (tile : List PointRec)
    (d : BuildingValidationClusterInfo → ℕ) (nb : ℕ) (i : ℕ)
    (hflag : (getPoint (BuildingValidator.prepare cc fn b ov tile) i).candidate_flag = 1)
    (hcid : (getPoint (BuildingValidator.prepare cc fn b ov tile) i).cluster_id_candidates = 0) :
    (getPoint (BuildingValidator.update d nb (BuildingValidator.prepare cc fn b ov tile))
        i).classification = nb :=
  update_noise_classification hflag hcid

/-- C4 witness: a lone candidate that the clustering oracle leaves as noise
(id 0) ends `update` with the `not_building` code 35. -/
theorem C4_witness :
    ((getPoint (BuildingValidator.prepare [6] (fun _ => [0]) false (fun _ => 0)
        [{ classification := 6, candidate_flag := 0, cluster_id_pdal := 0,
           cluster_id_candidates := 0, cluster_id_isolated_plus_confirmed := 0,
           building_proba := 9/10, db_overlay := 0, entropy := 0 }])
        0).candidate_flag = 1 ∧
     (getPoint (BuildingValidator.prepare [6] (fun _ => [0]) false (fun _ => 0)
        [{ classification := 6, candidate_flag := 0, cluster_id_pdal := 0,
           cluster_id_candidates := 0, cluster_id_isolated_plus_confirmed := 0,
           building_proba := 9/10, db_overlay := 0, entropy := 0 }])
        0).cluster_id_candidates = 0) ∧
    (getPoint (BuildingValidator.update (fun _ => 99) 35
        (BuildingValidator.prepare [6] (fun _ => [0]) false (fun _ => 0)
          [{ classification := 6, candidate_flag := 0, cluster_id_pdal := 0,
             cluster_id_candidates := 0, cluster_id_isolated_plus_confirmed := 0,
             building_proba := 9/10, db_overlay := 0, entropy := 0 }]))
        0).classification = 35 :=
  ⟨⟨by decide, by decide⟩,
    C4_noise_candidates_get_not_building [6] (fun _ => [0]) false (fun _ => 0) _
      (fun _ => 99) 35 0 (by decide) (by decide)⟩

/-- C5: `Completor.run` never demotes: every point whose classification equals
the final building code before the call still carries it afterwards — each
group either keeps its points or sets them all to the building code, and no
other write happens. -/
theorem C5_completor_never_demotes (building : ℕ) (pi rho : ℚ)
    (fn : List PointRec → List ℕ) (t : List PointRec) (i : ℕ)
    (h : (getPoint t i).classification = building) :
    (getPoint (BuildingCompletor.run building pi rho fn t) i).classification = building :=
  completor_run_mono h

/-- C5 witness: a confirmed building point (code 6) survives `Completor.run`. -/
theorem C5_witness :
    (getPoint
        [{ classification := 6, candidate_flag := 0, cluster_id_pdal := 0,
           cluster_id_candidates := 0, cluster_id_isolated_plus_confirmed := 0,
           building_proba := 9/10, db_overlay := 0, entropy := 0 }] 0).classification = 6 ∧
    (getPoint (BuildingCompletor.run 6 (3/4) 1 (fun _ => [1])
        [{ classification := 6, candidate_flag := 0, cluster_id_pdal := 0,
           cluster_id_candidates := 0, cluster_id_isolated_plus_confirmed := 0,
           building_proba := 9/10, db_overlay := 0, entropy := 0 }]) 0).classification = 6 :=
  ⟨by decide, C5_completor_never_demotes 6 (3/4) 1 (fun _ => [1]) _ 0 (by decide)⟩

/-- C6: the optimiser's penalty list is the singleton of the sum of the
shortfalls below the three minima; it is `[0]` exactly when automation,
precision and recall all meet their minima, and strictly positive when any
minimum is violated. -/
theorem C6_penalty_zero_iff_feasible (c : Constraints) (auto precision recall' : ℚ) :
    compute_penalty c auto precision recall' = [spec_shortfall_sum c auto precision recall'] ∧
    (compute_penalty c auto precision recall' = [0] ↔
      (c.min_automation_constraint ≤ auto ∧ c.min_precision_constraint ≤ precision ∧
        c.min_recall_constraint ≤ recall')) ∧
    (¬(c.min_automation_constraint ≤ auto ∧ c.min_precision_constraint ≤ precision ∧
        c.min_recall_constraint ≤ recall') →
      0 < spec_shortfall_sum c auto precision recall') := by
  have hsum : compute_penalty c auto precision recall' =
      [spec_shortfall_sum c auto precision recall'] := by
    unfold compute_penalty spec_shortfall_sum
    split_ifs <;> simp <;> ring
  have hpos : ¬(c.min_automation_constraint ≤ auto ∧ c.min_precision_constraint ≤ precision ∧
      c.min_recall_constraint ≤ recall') → 0 < spec_shortfall_sum c auto precision recall' := by
    intro hno
    unfold spec_shortfall_sum
    split_ifs <;>
      first
        | linarith
        | exact absurd ⟨by linarith, by linarith, by linarith⟩ hno
  refine ⟨hsum, ⟨?_, ?_⟩, hpos⟩
  · intro h
    by_contra hno
    have h0 : spec_shortfall_sum c auto precision recall' = 0 := by
      rw [hsum] at h
      simpa using h
    have := hpos hno
    linarith
  · intro hfeas
    rw [hsum]
    have h0 : spec_shortfall_sum c auto precision recall' = 0 := by
      unfold spec_shortfall_sum
      rw [if_neg (not_lt.2 hfeas.1), if_neg (not_lt.2 hfeas.2.1), if_neg (not_lt.2 hfeas.2.2)]
      ring
    rw [h0]

/-- C6 witness: with minima (1,1,1) and all metrics 1/2, the penalty equals the
sum of the three shortfalls (3/2, strictly positive). -/
theorem C6_witness :
    compute_penalty ⟨1, 1, 1⟩ 0 0 0 = [spec_shortfall_sum ⟨1, 1, 1⟩ 0 0 0] ∧
    ¬((1 : ℚ) ≤ 0 ∧ (1 : ℚ) ≤ 0 ∧ (1 : ℚ) ≤ 0) ∧
    0 < spec_shortfall_sum ⟨1, 1, 1⟩ 0 0 0 :=
  ⟨(C6_penalty_zero_iff_feasible ⟨1, 1, 1⟩ 0 0 0).1, by decide,
    (C6_penalty_zero_iff_feasible ⟨1, 1, 1⟩ 0 0 0).2.2 (by decide)⟩

/-- C7: on the empty-table failure of `pgsql2shp`, the current
`request_bd_uni_for_building_shapefile` (utils) raises a `TypeError` — the
`bytes` literal is tested for membership in the *decoded* `str` output — instead
of returning the "no polygons" success `False`; indeed no failure output at all
can reach the `False` branch.  The legacy copy (building_validation), which
compares `bytes` with `bytes`, does return `False` there.  Connection refusals
and timeouts are re-raised. -/
theorem C7_empty_table_raises_type_error :
    request_bd_uni_for_building_shapefile true (.calledProcessFailed empty_table_message) =
      .error (.typeError "TypeError: a bytes-like object is required, not str") ∧
    (∀ out : String, request_bd_uni_for_building_shapefile true (.calledProcessFailed out) ≠
      .ok false) ∧
    request_bd_uni_for_building_shapefile_legacy (.calledProcessFailed empty_table_message) =
      .ok false ∧
    request_bd_uni_for_building_shapefile true .connectionRefused =
      .error .connectionRefusedError ∧
    request_bd_uni_for_building_shapefile true .timedOut = .error .timeoutExpired := by
  refine ⟨rfl, ?_, ?_, rfl, rfl⟩
  · intro out
    simp [request_bd_uni_for_building_shapefile, py_in]
  · simp [request_bd_uni_for_building_shapefile_legacy, py_eq, empty_table_message]

/-- C8: for a fixed threshold record, `Validator.update` is deterministic (it
is a function of the prepared state) and idempotent: re-running it on its own
output changes nothing, because the decisions depend only on probabilities,
overlays, entropies and cluster ids, none of which `update` modifies. -/
theorem C8_update_deterministic_idempotent (use_final : Bool) (m : ℕ → ℕ)
    (th : thresholds) (codes : DetailedCodes) (nb : ℕ) (tile : List PointRec) :
    (∀ t₁ t₂ : List PointRec, t₁ = t₂ →
      BuildingValidator.update (decision_function use_final m th codes) nb t₁ =
        BuildingValidator.update (decision_function use_final m th codes) nb t₂) ∧
    BuildingValidator.update (decision_function use_final m th codes) nb
        (BuildingValidator.update (decision_function use_final m th codes) nb tile) =
      BuildingValidator.update (decision_function use_final m th codes) nb tile :=
  ⟨fun _ _ h => by rw [h],
   update_idempotent_of_blind
     (fun i₁ i₂ hp ho he => decision_function_blind use_final m th codes i₁ i₂ hp ho he)
     nb tile⟩

/-- C8 witness: determinism and idempotence instantiated on a concrete
one-cluster candidate tile with the default-like thresholds. -/
theorem C8_witness :
    BuildingValidator.update
        (decision_function false (fun n => n) ⟨1/2, 1/2, 7/10, 1/2, 1/2, 1/2, 1/2, 1/2⟩
          ⟨200, 201, 202, 203, 204, 205, 206⟩) 35
        [{ classification := 6, candidate_flag := 1, cluster_id_pdal := 0,
           cluster_id_candidates := 1, cluster_id_isolated_plus_confirmed := 0,
           building_proba := 9/10, db_overlay := 1, entropy := 0 }] =
      BuildingValidator.update
        (decision_function false (fun n => n) ⟨1/2, 1/2, 7/10, 1/2, 1/2, 1/2, 1/2, 1/2⟩
          ⟨200, 201, 202, 203, 204, 205, 206⟩) 35
        [{ classification := 6, candidate_flag := 1, cluster_id_pdal := 0,
           cluster_id_candidates := 1, cluster_id_isolated_plus_confirmed := 0,
           building_proba := 9/10, db_overlay := 1, entropy := 0 }] ∧
    BuildingValidator.update
        (decision_function false (fun n => n) ⟨1/2, 1/2, 7/10, 1/2, 1/2, 1/2, 1/2, 1/2⟩
          ⟨200, 201, 202, 203, 204, 205, 206⟩) 35
        (BuildingValidator.update
          (decision_function false (fun n => n) ⟨1/2, 1/2, 7/10, 1/2, 1/2, 1/2, 1/2, 1/2⟩
            ⟨200, 201, 202, 203, 204, 205, 206⟩) 35
          [{ classification := 6, candidate_flag := 1, cluster_id_pdal := 0,
             cluster_id_candidates := 1, cluster_id_isolated_plus_confirmed := 0,
             building_proba := 9/10, db_overlay := 1, entropy := 0 }]) =
      BuildingValidator.update
        (decision_function false (fun n => n) ⟨1/2, 1/2, 7/10, 1/2, 1/2, 1/2, 1/2, 1/2⟩
          ⟨200, 201, 202, 203, 204, 205, 206⟩) 35
        [{ classification := 6, candidate_flag := 1, cluster_id_pdal := 0,
           cluster_id_candidates := 1, cluster_id_isolated_plus_confirmed := 0,
           building_proba := 9/10, db_overlay := 1, entropy := 0 }] :=
  ⟨(C8_update_deterministic_idempotent false (fun n => n)
      ⟨1/2, 1/2, 7/10, 1/2, 1/2, 1/2, 1/2, 1/2⟩ ⟨200, 201, 202, 203, 204, 205, 206⟩ 35
      [{ classification := 6, candidate_flag := 1, cluster_id_pdal := 0,
         cluster_id_candidates := 1, cluster_id_isolated_plus_confirmed := 0,
         building_proba := 9/10, db_overlay := 1, entropy := 0 }]).1 _ _ rfl,
   (C8_update_deterministic_idempotent false (fun n => n)
      ⟨1/2, 1/2, 7/10, 1/2, 1/2, 1/2, 1/2, 1/2⟩ ⟨200, 201, 202, 203, 204, 205, 206⟩ 35
      [{ classification := 6, candidate_flag := 1, cluster_id_pdal := 0,
         cluster_id_candidates := 1, cluster_id_isolated_plus_confirmed := 0,
         building_proba := 9/10, db_overlay := 1, entropy := 0 }]).2⟩

/-- C9 (implicit): `Validator.update` and the optimiser's cluster-info
extraction drop the *first* group of the ascending-value grouping of
`ClusterID_candidate_building` unconditionally, not the group with id 0.  On a
prepared tile in which every point carries a positive cluster id (no noise
point exists), the cluster with the smallest id `m` receives no decision — its
points keep the preset `not_building` code — and no kept group (hence no
cluster-info record: there is exactly one record fewer than groups) comes from
that cluster. -/
theorem C9_smallest_cluster_dropped_without_noise (cc : List ℕ)
    (fn : List PointRec → List ℕ) (b : Bool) (ov : ℕ → ℚ) (tile : List PointRec)
    (d : BuildingValidationClusterInfo → ℕ) (nb : ℕ) (labels : MTSLabelsConfig)
    (final : FinalCodes) (m : ℕ)
    (hpos : ∀ i, i < (BuildingValidator.prepare cc fn b ov tile).length →
      0 < (getPoint (BuildingValidator.prepare cc fn b ov tile) i).cluster_id_candidates)
    (hm : m ∈ (BuildingValidator.prepare cc fn b ov tile).map (fun p => p.cluster_id_candidates))
    (hmin : ∀ w ∈ (BuildingValidator.prepare cc fn b ov tile).map
      (fun p => p.cluster_id_candidates), m ≤ w) :
    (∀ i, i < (BuildingValidator.prepare cc fn b ov tile).length →
      (getPoint (BuildingValidator.prepare cc fn b ov tile) i).cluster_id_candidates = m →
      (getPoint (BuildingValidator.update d nb (BuildingValidator.prepare cc fn b ov tile))
          i).classification = nb) ∧
    (∀ g ∈ (split_idx_by_dim ((BuildingValidator.prepare cc fn b ov tile).map
        (fun p => p.cluster_id_candidates))).tail, ∀ i ∈ g,
      (getPoint (BuildingValidator.prepare cc fn b ov tile) i).cluster_id_candidates ≠ m) ∧
    (extract_clusters_from_las labels final
        (BuildingValidator.prepare cc fn b ov tile)).length + 1 =
      (split_idx_by_dim ((BuildingValidator.prepare cc fn b ov tile).map
        (fun p => p.cluster_id_candidates))).length := by
  set pre := BuildingValidator.prepare cc fn b ov tile with hpre
  have h2 : ∀ g ∈ (split_idx_by_dim (pre.map (fun p => p.cluster_id_candidates))).tail,
      ∀ i ∈ g, (getPoint pre i).cluster_id_candidates ≠ m := by
    intro g hg i hi
    have hilt : i < (pre.map (fun p => p.cluster_id_candidates)).length :=
      split_idx_mem_lt g (List.mem_of_mem_tail hg) i hi
    have hilt' : i < pre.length := by simpa using hilt
    have hv : (pre.map (fun p => p.cluster_id_candidates))[i]? =
        some ((getPoint pre i).cluster_id_candidates) := by
      rw [List.getElem?_map, List.getElem?_eq_getElem hilt', Option.map_some',
        getPoint_of_lt hilt']
    have := split_idx_tail_gt_min (pre.map (fun p => p.cluster_id_candidates)) hmin g hg i hi
      ((getPoint pre i).cluster_id_candidates) hv
    omega
  have hm_pos : 0 < m := by
    obtain ⟨p, hp, hpm⟩ := List.mem_map.1 hm
    obtain ⟨j, hj, hje⟩ := List.mem_iff_getElem.1 hp
    have := hpos j hj
    rw [getPoint_of_lt hj, hje, hpm] at this
    exact this
  refine ⟨?_, h2, ?_⟩
  · intro i hi hcid
    have hflag : (getPoint pre i).candidate_flag = 1 :=
      prepare_cid_pos_flag i (by rw [hcid]; exact hm_pos)
    have huntouched : getPoint (BuildingValidator.update d nb pre) i =
        getPoint (preset_candidates nb pre) i := by
      unfold BuildingValidator.update
      apply getPoint_decision_loop_not_mem
      intro g hg hig
      rw [map_cid_preset] at hg
      exact h2 g hg i hig hcid
    rw [huntouched, getPoint_preset_lt hi, if_pos hflag]
  · have hne : split_idx_by_dim (pre.map (fun p => p.cluster_id_candidates)) ≠ [] := by
      intro hsplit
      have hperm := split_idx_partition (pre.map (fun p => p.cluster_id_candidates))
      rw [hsplit] at hperm
      have hlen := hperm.length_eq
      simp only [List.flatten_nil, List.length_nil, List.length_range, List.length_map] at hlen
      obtain ⟨p, hp, _⟩ := List.mem_map.1 hm
      rw [List.length_eq_zero.1 hlen.symm] at hp
      simp at hp
    have hlen1 : 0 < (split_idx_by_dim (pre.map (fun p => p.cluster_id_candidates))).length :=
      List.length_pos.2 hne
    unfold extract_clusters_from_las
    simp only [List.length_map, List.length_tail]
    omega

/-- C9 witness: two candidate points clustered into ids 1 and 2 (no noise):
the cluster with id 1 keeps the preset not-building code 35, the kept group
[1] has id 2 ≠ 1, and there is one cluster-info record for two groups. -/
theorem C9_witness :
    ((∀ i, i < (BuildingValidator.prepare [6] (fun _ => [1, 2]) false (fun _ => 0)
        [{ classification := 6, candidate_flag := 0, cluster_id_pdal := 0,
           cluster_id_candidates := 0, cluster_id_isolated_plus_confirmed := 0,
           building_proba := 9/10, db_overlay := 0, entropy := 0 },
         { classification := 6, candidate_flag := 0, cluster_id_pdal := 0,
           cluster_id_candidates := 0, cluster_id_isolated_plus_confirmed := 0,
           building_proba := 8/10, db_overlay := 0, entropy := 0 }]).length →
      0 < (getPoint (BuildingValidator.prepare [6] (fun _ => [1, 2]) false (fun _ => 0)
        [{ classification := 6, candidate_flag := 0, cluster_id_pdal := 0,
           cluster_id_candidates := 0, cluster_id_isolated_plus_confirmed := 0,
           building_proba := 9/10, db_overlay := 0, entropy := 0 },
         { classification := 6, candidate_flag := 0, cluster_id_pdal := 0,
           cluster_id_candidates := 0, cluster_id_isolated_plus_confirmed := 0,
           building_proba := 8/10, db_overlay := 0, entropy := 0 }]) i).cluster_id_candidates)) ∧
    (getPoint (BuildingValidator.update (fun _ => 99) 35
        (BuildingValidator.prepare [6] (fun _ => [1, 2]) false (fun _ => 0)
          [{ classification := 6, candidate_flag := 0, cluster_id_pdal := 0,
             cluster_id_candidates := 0, cluster_id_isolated_plus_confirmed := 0,
             building_proba := 9/10, db_overlay := 0, entropy := 0 },
           { classification := 6, candidate_flag := 0, cluster_id_pdal := 0,
             cluster_id_candidates := 0, cluster_id_isolated_plus_confirmed := 0,
             building_proba := 8/10, db_overlay := 0, entropy := 0 }]))
        0).classification = 35 ∧
    (extract_clusters_from_las ⟨[19], 1, 1⟩ ⟨6, 35, 33⟩
        (BuildingValidator.prepare [6] (fun _ => [1, 2]) false (fun _ => 0)
          [{ classification := 6, candidate_flag := 0, cluster_id_pdal := 0,
             cluster_id_candidates := 0, cluster_id_isolated_plus_confirmed := 0,
             building_proba := 9/10, db_overlay := 0, entropy := 0 },
           { classification := 6, candidate_flag := 0, cluster_id_pdal := 0,
             cluster_id_candidates := 0, cluster_id_isolated_plus_confirmed := 0,
             building_proba := 8/10, db_overlay := 0, entropy := 0 }])).length + 1 =
      (split_idx_by_dim ((BuildingValidator.prepare [6] (fun _ => [1, 2]) false (fun _ => 0)
          [{ classification := 6, candidate_flag := 0, cluster_id_pdal := 0,
             cluster_id_candidates := 0, cluster_id_isolated_plus_confirmed := 0,
             building_proba := 9/10, db_overlay := 0, entropy := 0 },
           { classification := 6, candidate_flag := 0, cluster_id_pdal := 0,
             cluster_id_candidates := 0, cluster_id_isolated_plus_confirmed := 0,
             building_proba := 8/10, db_overlay := 0, entropy := 0 }]).map
        (fun p => p.cluster_id_candidates))).length :=
  ⟨by decide,
   (C9_smallest_cluster_dropped_without_noise [6] (fun _ => [1, 2]) false (fun _ => 0) _
      (fun _ => 99) 35 ⟨[19], 1, 1⟩ ⟨6, 35, 33⟩ 1
      (by decide) (by decide) (by decide)).1 0 (by decide) (by decide),
   (C9_smallest_cluster_dropped_without_noise [6] (fun _ => [1, 2]) false (fun _ => 0) _
      (fun _ => 99) 35 ⟨[19], 1, 1⟩ ⟨6, 35, 33⟩ 1
      (by decide) (by decide) (by decide)).2.2⟩

/-- C10 (implicit): for every non-empty array, `split_idx_by_dim` returns index
groups that partition `{0, …, n-1}` (their concatenation is a permutation of
`range n`); within each group all array values are equal; the common values are
strictly increasing from one group to the next; and the group of the smallest
value comes first. -/
theorem C10_split_idx_by_dim_partition {α : Type _} [LinearOrder α] (a : List α)
    (ha : a ≠ []) :
    (split_idx_by_dim a).flatten.Perm (List.range a.length) ∧
    (∀ g ∈ split_idx_by_dim a, g ≠ [] ∧ ∃ v, ∀ i ∈ g, a[i]? = some v) ∧
    (split_idx_by_dim a).Chain' (fun g h => ∀ i ∈ g, ∀ j ∈ h,
      ∃ v w, a[i]? = some v ∧ a[j]? = some w ∧ v < w) ∧
    ∃ g₀ gs, split_idx_by_dim a = g₀ :: gs ∧
      ∀ i ∈ g₀, ∀ v, a[i]? = some v → ∀ w ∈ a, v ≤ w := by
  refine ⟨split_idx_partition a,
    fun g hg => ⟨split_idx_groups_ne_nil g hg, split_idx_const g hg⟩,
    split_idx_chain a, ?_⟩
  have hne : split_idx_by_dim a ≠ [] := by
    intro hsplit
    have hperm := split_idx_partition a
    rw [hsplit] at hperm
    have hlen := hperm.length_eq
    simp only [List.flatten_nil, List.length_nil, List.length_range] at hlen
    exact ha (List.length_eq_zero.1 hlen.symm)
  rcases hsp : split_idx_by_dim a with _ | ⟨g₀, gs⟩
  · exact absurd hsp hne
  refine ⟨g₀, gs, rfl, ?_⟩
  intro i hi v hv w hw
  obtain ⟨j, hj⟩ := List.mem_iff_getElem?.1 hw
  have hjmem : j ∈ (split_idx_by_dim a).flatten := by
    have hjlt : j < a.length := (List.getElem?_eq_some.1 hj).1
    exact ((split_idx_partition a).mem_iff).2 (List.mem_range.2 hjlt)
  obtain ⟨g, hg, hjg⟩ := List.mem_flatten.1 hjmem
  rw [hsp] at hg
  rcases List.mem_cons.1 hg with hg | hg
  · rw [hg] at hjg
    obtain ⟨v', hv'⟩ := split_idx_const g₀ (hsp ▸ List.mem_cons_self g₀ gs)
    have h1 := hv' i hi
    have h2 := hv' j hjg
    rw [hv] at h1
    rw [hj] at h2
    have e1 : v = v' := Option.some_injective _ h1
    have e2 : w = v' := Option.some_injective _ h2
    rw [e1, e2]
  · have hpw := split_idx_pairwise a
    rw [hsp] at hpw
    obtain ⟨v', w', hv', hw', hlt⟩ := (List.pairwise_cons.1 hpw).1 g hg i hi j hjg
    rw [hv] at hv'
    rw [hj] at hw'
    have e1 : v = v' := Option.some_injective _ hv'
    have e2 : w = w' := Option.some_injective _ hw'
    rw [e1, e2]
    exact le_of_lt hlt

/-- C10 witness: the array [2, 1, 1] splits into groups [[1, 2], [0]] — the
indices of value 1 first, then the index of value 2 — a partition of range 3
with equal values inside groups, strictly increasing across groups, smallest
value first. -/
theorem C10_witness :
    (([2, 1, 1] : List ℕ) ≠ []) ∧
    ((split_idx_by_dim ([2, 1, 1] : List ℕ)).flatten.Perm (List.range 3) ∧
    (∀ g ∈ split_idx_by_dim ([2, 1, 1] : List ℕ), g ≠ [] ∧
      ∃ v, ∀ i ∈ g, ([2, 1, 1] : List ℕ)[i]? = some v) ∧
    (split_idx_by_dim ([2, 1, 1] : List ℕ)).Chain' (fun g h => ∀ i ∈ g, ∀ j ∈ h,
      ∃ v w, ([2, 1, 1] : List ℕ)[i]? = some v ∧ ([2, 1, 1] : List ℕ)[j]? = some w ∧ v < w) ∧
    ∃ g₀ gs, split_idx_by_dim ([2, 1, 1] : List ℕ) = g₀ :: gs ∧
      ∀ i ∈ g₀, ∀ v, ([2, 1, 1] : List ℕ)[i]? = some v → ∀ w ∈ ([2, 1, 1] : List ℕ), v ≤ w) :=
  ⟨by decide, C10_split_idx_by_dim_partition [2, 1, 1] (by decide)⟩
